import Mathlib

/-!
Verification of the large-document ingestion pipeline of the
VendorDocComparsion repository (venxtra backend plus frontend).

The backend pipeline components (ChunkingEngine, MemoryGovernor,
BatchInferenceClient, ResultAggregator, TaskManager, the Orchestrator and
the enhanced upload endpoint) are described by design documents of the repository (ENHANCED_PARSERS_README.md and the enhanced-processing migration
guide) but their Python sources are not part of the tree; those components
are modelled here from the words of the specification, as flagged on each
definition. The frontend `DocumentStatus` renderer is embedded directly
from `venxtra-frontend/src/pages/VendorDetails.jsx`.
-/

namespace VendorDoc

/-! ### ChunkingEngine -/

/-- Modelled from the spec: `ChunkingEngine.chunk` — missing backend source
`app/enhanced_parsers.py`. Walks the word list in windows of `maxW` words;
the window start advances by `step = maxW - overlap` each iteration; the
final window is whatever remains once at most `maxW` words are left. The
`step = 0` disjunct is unreachable under the configuration guard
`overlap < maxW` enforced by `chunk` and only makes the recursion total. -/
def chunkFrom (maxW step : Nat) (ws : List String) : List (List String) :=
  if ws.length ≤ maxW ∨ step = 0 then [ws]
  else ws.take maxW :: chunkFrom maxW step (ws.drop step)
termination_by ws.length
decreasing_by
  simp only [List.length_drop]
  omega

/-- A chunking configuration error (overlap not smaller than the chunk
window), per the spec fatal at configuration time. -/
inductive ChunkError where
  | configurationError
deriving DecidableEq, Repr

/-- Modelled from the spec: `ChunkingEngine.chunk` over an already
word-split text. Fails with a configuration error unless
`overlap < maxW`; an empty document yields zero chunks. -/
def chunk (ws : List String) (maxW overlap : Nat) :
    Except ChunkError (List (List String)) :=
  if overlap < maxW then
    if ws.isEmpty then .ok [] else .ok (chunkFrom maxW (maxW - overlap) ws)
  else .error .configurationError

/-- Concatenation of a chunk sequence that keeps only the first `step`
words of every chunk but the last; used to state that the chunks cover the
source text. -/
def cover (step : Nat) : List (List String) → List String
  | [] => []
  | [c] => c
  | c :: cs => c.take step ++ cover step cs

theorem chunkFrom_ne_nil (maxW step : Nat) (ws : List String) :
    chunkFrom maxW step ws ≠ [] := by
  rw [chunkFrom]
  split <;> simp

/-- Every chunk produced by `chunkFrom` is the `maxW`-window of the suffix
of the source starting at `i * step`. -/
theorem chunkFrom_getD (maxW step : Nat) (hs : 0 < step) (hsm : step ≤ maxW) :
    ∀ n (ws : List String), ws.length ≤ n →
      ∀ i, i < (chunkFrom maxW step ws).length →
        (chunkFrom maxW step ws).getD i [] = (ws.drop (i * step)).take maxW := by
  intro n
  induction n with
  | zero =>
    intro ws hw i hi
    rw [chunkFrom] at hi ⊢
    have hws : ws.length = 0 := Nat.le_zero.mp hw
    rw [if_pos (Or.inl (by omega))] at hi ⊢
    have hi0 : i = 0 := by simp at hi; omega
    subst hi0
    simp [List.take_of_length_le (by omega : ws.length ≤ maxW)]
  | succ n ih =>
    intro ws hw i hi
    rw [chunkFrom] at hi ⊢
    by_cases hbase : ws.length ≤ maxW ∨ step = 0
    · rw [if_pos hbase] at hi ⊢
      have hi0 : i = 0 := by simp at hi; omega
      subst hi0
      have hle : ws.length ≤ maxW := by
        rcases hbase with h | h
        · exact h
        · omega
      simp [List.take_of_length_le hle]
    · rw [if_neg hbase] at hi ⊢
      push_neg at hbase
      match i with
      | 0 => simp
      | i + 1 =>
        simp only [List.length_cons, Nat.add_lt_add_iff_right] at hi
        simp only [List.getD_cons_succ]
        rw [ih (ws.drop step) (by simp [List.length_drop]; omega) i hi]
        rw [List.drop_drop]
        congr 2
        ring

/-- A chunk with a successor is a full window: more than `maxW` words
remain at its start position. -/
theorem chunkFrom_full (maxW step : Nat) (hs : 0 < step) :
    ∀ n (ws : List String), ws.length ≤ n →
      ∀ i, i + 1 < (chunkFrom maxW step ws).length →
        maxW < (ws.drop (i * step)).length := by
  intro n
  induction n with
  | zero =>
    intro ws hw i hi
    rw [chunkFrom, if_pos (Or.inl (by omega))] at hi
    simp at hi
  | succ n ih =>
    intro ws hw i hi
    rw [chunkFrom] at hi
    by_cases hbase : ws.length ≤ maxW ∨ step = 0
    · rw [if_pos hbase] at hi
      simp at hi
    · rw [if_neg hbase] at hi
      push_neg at hbase
      match i with
      | 0 => simpa using hbase.1
      | i + 1 =>
        simp only [List.length_cons, Nat.add_lt_add_iff_right] at hi
        have := ih (ws.drop step) (by simp [List.length_drop]; omega) i hi
        rw [List.drop_drop] at this
        have harith : step + i * step = (i + 1) * step := by ring
        rwa [harith] at this

/-- The chunks cover the source text: gluing the first `step`
words of each chunk onto the final chunk reconstructs the word list. -/
theorem chunkFrom_cover (maxW step : Nat) (hs : 0 < step) (hsm : step ≤ maxW) :
    ∀ n (ws : List String), ws.length ≤ n →
      cover step (chunkFrom maxW step ws) = ws := by
  intro n
  induction n with
  | zero =>
    intro ws hw
    rw [chunkFrom, if_pos (Or.inl (by omega))]
    rfl
  | succ n ih =>
    intro ws hw
    rw [chunkFrom]
    by_cases hbase : ws.length ≤ maxW ∨ step = 0
    · rw [if_pos hbase]
      rfl
    · rw [if_neg hbase]
      push_neg at hbase
      obtain ⟨r, rs, hrest⟩ :=
        List.exists_cons_of_ne_nil (chunkFrom_ne_nil maxW step (ws.drop step))
      have ihr : cover step (chunkFrom maxW step (ws.drop step)) = ws.drop step :=
        ih (ws.drop step) (by simp [List.length_drop]; omega)
      rw [hrest] at ihr ⊢
      show (ws.take maxW).take step ++ cover step (r :: rs) = ws
      rw [ihr, List.take_take, Nat.min_eq_left hsm, List.take_append_drop]

/-- Consecutive chunks overlap in exactly `ov` words: the last `ov` words
of a chunk are the first `ov` words of its successor. -/
theorem chunkFrom_overlap (maxW ov : Nat) (hov : ov < maxW) (ws : List String)
    (i : Nat) (hi : i + 1 < (chunkFrom maxW (maxW - ov) ws).length) :
    ((chunkFrom maxW (maxW - ov) ws).getD i []).drop (maxW - ov)
        = ((chunkFrom maxW (maxW - ov) ws).getD (i + 1) []).take ov ∧
    (((chunkFrom maxW (maxW - ov) ws).getD i []).drop (maxW - ov)).length = ov := by
  set step := maxW - ov with hstep
  have hs : 0 < step := by omega
  have hsm : step ≤ maxW := by omega
  have h1 := chunkFrom_getD maxW step hs hsm ws.length ws le_rfl i (by omega)
  have h2 := chunkFrom_getD maxW step hs hsm ws.length ws le_rfl (i + 1) hi
  have hfull := chunkFrom_full maxW step hs ws.length ws le_rfl i hi
  rw [h1, h2]
  have harith : i * step + step = (i + 1) * step := by ring
  have hmo : maxW - step = ov := by omega
  constructor
  · rw [List.drop_take, List.drop_drop, harith, hmo, List.take_take,
      Nat.min_eq_left (Nat.le_of_lt hov)]
  · rw [List.drop_take, List.drop_drop, harith, hmo]
    simp only [List.length_take, List.length_drop] at hfull ⊢
    omega

/-- On a valid configuration and a non-empty word list, `chunk` succeeds
and returns exactly the windows of `chunkFrom`. -/
theorem chunk_ok (ws : List String) (maxW ov : Nat) (hne : ws ≠ [])
    (hov : ov < maxW) :
    chunk ws maxW ov = Except.ok (chunkFrom maxW (maxW - ov) ws) := by
  rw [chunk, if_pos hov, if_neg (by simpa using hne)]

/-- Every chunk returned by a successful `chunk` call holds at most `maxW`
words. -/
theorem chunk_length_le (ws : List String) (maxW ov : Nat)
    (cs : List (List String)) (h : chunk ws maxW ov = Except.ok cs) :
    ∀ c ∈ cs, c.length ≤ maxW := by
  rw [chunk] at h
  by_cases hov : ov < maxW
  · rw [if_pos hov] at h
    by_cases hemp : ws.isEmpty
    · rw [if_pos hemp] at h
      cases h
      simp
    · rw [if_neg hemp] at h
      cases h
      intro c hc
      obtain ⟨i, hil, hig⟩ := List.mem_iff_getElem.mp hc
      have := chunkFrom_getD maxW (maxW - ov) (by omega) (by omega)
        ws.length ws le_rfl i hil
      rw [List.getD_eq_getElem _ _ hil, hig] at this
      rw [this]
      simp
  · rw [if_neg hov] at h
    cases h

/-! ### ResultAggregator data model -/

/-- Modelled from the spec: normalized identity used for de-duplication —
case-insensitive trimmed equality (missing backend source
`app/enhanced_groq_client.py`). -/
def trimChars (cs : List Char) : List Char :=
  ((cs.dropWhile Char.isWhitespace).reverse.dropWhile Char.isWhitespace).reverse

def normalizeKey (s : String) : String :=
  String.mk ((trimChars s.data).map Char.toLower)

/-- A pricing line item of a structured fragment; prices are modelled as
natural numbers of currency minor units. -/
structure PricingItem where
  item : String
  quantity : Nat
  unitPrice : Nat
  totalPrice : Nat
deriving DecidableEq, Repr

/-- Composite de-duplication key of a pricing line item:
(normalized item, quantity, unit price). -/
def pKey (p : PricingItem) : String × Nat × Nat :=
  (normalizeKey p.item, p.quantity, p.unitPrice)

/-- Modelled from the spec: one step of pricing de-duplication. If no kept
item shares the key, the item is appended; if a kept item shares the key,
the higher total price wins and a differing total price counts one
conflict. -/
def insertPricing (acc : List PricingItem × Nat) (p : PricingItem) :
    List PricingItem × Nat :=
  match acc.1.find? (fun q => decide (pKey q = pKey p)) with
  | none => (acc.1 ++ [p], acc.2)
  | some q =>
      (if q.totalPrice < p.totalPrice
         then acc.1.map (fun r => if pKey r = pKey p then p else r)
         else acc.1,
       if q.totalPrice = p.totalPrice then acc.2 else acc.2 + 1)

/-- Modelled from the spec: pricing line items are unioned then
de-duplicated by composite key; returns the kept items and the number of
recorded conflicts. -/
def dedupPricing (ps : List PricingItem) : List PricingItem × Nat :=
  ps.foldl insertPricing ([], 0)

/-- Modelled from the spec: list-field merge — union preserving first-seen
order, de-duplicated by case-insensitive trimmed equality. -/
def dedupStrings (l : List String) : List String :=
  l.foldl
    (fun acc s =>
      if acc.any (fun t => decide (normalizeKey t = normalizeKey s))
        then acc else acc ++ [s])
    []

/-- Modelled from the spec: scalar-field merge — the first non-empty value
in chunk order wins. -/
def firstNonEmpty (l : List String) : String :=
  (l.find? (fun s => !s.isEmpty)).getD ""

/-- A structured fragment returned by inference for one chunk. -/
structure Fragment where
  chunkId : Nat
  vendorName : String
  documentType : String
  products : List String
  deliveryTerms : List String
  paymentTerms : List String
  pricing : List PricingItem
deriving DecidableEq, Repr

/-- Fragments are ordered by their chunk sequence number. -/
def fragLE (a b : Fragment) : Prop := a.chunkId ≤ b.chunkId

instance : DecidableRel fragLE := fun a b => Nat.decLe a.chunkId b.chunkId

/-- Modelled from the spec: aggregation is deterministic regardless of
arrival order, so fragments are first put into chunk order. -/
def sortFrags (l : List Fragment) : List Fragment := List.insertionSort fragLE l

/-- The canonical structured vendor record. -/
structure AggregatedResult where
  vendorName : String
  documentType : String
  products : List String
  deliveryTerms : List String
  paymentTerms : List String
  pricing : List PricingItem
  totalPricing : Nat
deriving DecidableEq, Repr

/-- Modelled from the spec: merge of an already chunk-ordered fragment
list, also returning the pricing-conflict count destined for
ProcessingMetrics. -/
def aggregateSorted (fs : List Fragment) : AggregatedResult × Nat :=
  let pr := dedupPricing ((fs.map Fragment.pricing).flatten)
  ({ vendorName := firstNonEmpty (fs.map Fragment.vendorName),
     documentType := firstNonEmpty (fs.map Fragment.documentType),
     products := dedupStrings ((fs.map Fragment.products).flatten),
     deliveryTerms := dedupStrings ((fs.map Fragment.deliveryTerms).flatten),
     paymentTerms := dedupStrings ((fs.map Fragment.paymentTerms).flatten),
     pricing := pr.1,
     totalPricing := (pr.1.map PricingItem.totalPrice).sum },
   pr.2)

/-- Modelled from the spec: `ResultAggregator.aggregate` — missing backend
source `app/enhanced_groq_client.py`. -/
def aggregate (fs : List Fragment) : AggregatedResult × Nat :=
  aggregateSorted (sortFrags fs)

/-! ### Order-independence of aggregation -/

/-- A list sorted by chunk order whose chunk ids are distinct is sorted by
strictly increasing chunk id. -/
theorem sorted_strict_of_nodup {l : List Fragment}
    (hs : l.Sorted fragLE) (hn : (l.map Fragment.chunkId).Nodup) :
    l.Sorted (fun a b => a.chunkId < b.chunkId) := by
  have hne : l.Pairwise (fun a b => a.chunkId ≠ b.chunkId) :=
    List.pairwise_map.mp hn
  exact (hs.and hne).imp (fun h => lt_of_le_of_ne h.1 h.2)

/-- Sorting by chunk id is a canonical form: permuted fragment lists with
distinct chunk ids sort identically. -/
theorem sortFrags_eq_of_perm (l₁ l₂ : List Fragment) (hperm : l₁.Perm l₂)
    (hn : (l₁.map Fragment.chunkId).Nodup) :
    sortFrags l₁ = sortFrags l₂ := by
  haveI : IsTotal Fragment fragLE := ⟨fun a b => Nat.le_total a.chunkId b.chunkId⟩
  haveI : IsTrans Fragment fragLE := ⟨fun a b c => Nat.le_trans⟩
  haveI : IsAntisymm Fragment (fun a b : Fragment => a.chunkId < b.chunkId) :=
    ⟨fun a b h1 h2 => absurd (Nat.lt_trans h1 h2) (Nat.lt_irrefl _)⟩
  have hp : (sortFrags l₁).Perm (sortFrags l₂) :=
    (List.perm_insertionSort fragLE l₁).trans
      (hperm.trans (List.perm_insertionSort fragLE l₂).symm)
  have hn₁ : ((sortFrags l₁).map Fragment.chunkId).Nodup :=
    (((List.perm_insertionSort fragLE l₁).map Fragment.chunkId).nodup_iff).mpr hn
  have hn₂ : ((sortFrags l₂).map Fragment.chunkId).Nodup :=
    (((List.perm_insertionSort fragLE l₂).map Fragment.chunkId).nodup_iff).mpr
      (((hperm.map Fragment.chunkId).nodup_iff).mp hn)
  exact List.eq_of_perm_of_sorted hp
    (sorted_strict_of_nodup (List.sorted_insertionSort fragLE l₁) hn₁)
    (sorted_strict_of_nodup (List.sorted_insertionSort fragLE l₂) hn₂)

/-! ### Pricing de-duplication invariant -/

/-- Invariant of the pricing de-duplication fold over the processed prefix:
kept items have pairwise-distinct keys, every kept item is a processed
item, every processed item is dominated by a kept item of its key, and a
conflict has been counted unless all processed items of every key agree on
total price. -/
def PricingInv (processed : List PricingItem) (acc : List PricingItem × Nat) : Prop :=
  (acc.1.map pKey).Nodup ∧
  (∀ q ∈ acc.1, q ∈ processed) ∧
  (∀ p ∈ processed, ∃ q ∈ acc.1, pKey q = pKey p ∧ p.totalPrice ≤ q.totalPrice) ∧
  (0 < acc.2 ∨
    ∀ p ∈ processed, ∀ q ∈ processed, pKey p = pKey q →
      p.totalPrice = q.totalPrice)

theorem pricingInv_nil : PricingInv [] ([], 0) := by
  refine ⟨List.nodup_nil, ?_, ?_, Or.inr ?_⟩ <;> simp

theorem pricingInv_step (processed : List PricingItem)
    (acc : List PricingItem × Nat) (p : PricingItem)
    (h : PricingInv processed acc) :
    PricingInv (processed ++ [p]) (insertPricing acc p) := by
  obtain ⟨hnd, hmem, hdom, hconf⟩ := h
  rcases hfind : acc.1.find? (fun q => decide (pKey q = pKey p)) with _ | q
  · have hnone : ∀ q ∈ acc.1, pKey q ≠ pKey p := by
      intro q hq
      have := List.find?_eq_none.mp hfind q hq
      simpa using this
    have hstep : insertPricing acc p = (acc.1 ++ [p], acc.2) := by
      rw [insertPricing, hfind]
    rw [hstep]
    refine ⟨?_, ?_, ?_, ?_⟩
    · have hnotin : pKey p ∉ acc.1.map pKey := by
        intro hmem2
        obtain ⟨r, hr, hre⟩ := List.mem_map.mp hmem2
        exact hnone r hr hre
      simp only [List.map_append, List.map_cons, List.map_nil]
      rw [List.nodup_append]
      refine ⟨hnd, List.nodup_singleton _, ?_⟩
      intro a ha hb
      simp at hb
      rw [hb] at ha
      exact hnotin ha
    · intro q hq
      rcases List.mem_append.mp hq with h1 | h1
      · exact List.mem_append_left _ (hmem q h1)
      · exact List.mem_append_right _ h1
    · intro x hx
      rcases List.mem_append.mp hx with h1 | h1
      · obtain ⟨r, hr, hrk, hrle⟩ := hdom x h1
        exact ⟨r, List.mem_append_left _ hr, hrk, hrle⟩
      · have hx1 : x = p := by simpa using h1
        rw [hx1]
        exact ⟨p, List.mem_append_right _ (by simp), rfl, le_rfl⟩
    · rcases hconf with h1 | hall
      · exact Or.inl h1
      · refine Or.inr ?_
        intro x hx y hy hk
        rcases List.mem_append.mp hx with hx1 | hx1 <;>
          rcases List.mem_append.mp hy with hy1 | hy1
        · exact hall x hx1 y hy1 hk
        · have hy2 : y = p := by simpa using hy1
          rw [hy2] at hk
          obtain ⟨r, hr, hrk, _⟩ := hdom x hx1
          exact absurd (hrk.trans hk) (hnone r hr)
        · have hx2 : x = p := by simpa using hx1
          rw [hx2] at hk
          obtain ⟨r, hr, hrk, _⟩ := hdom y hy1
          exact absurd (hrk.trans hk.symm) (hnone r hr)
        · have hx2 : x = p := by simpa using hx1
          have hy2 : y = p := by simpa using hy1
          rw [hx2, hy2]
  · have hq1 : q ∈ acc.1 := List.mem_of_find?_eq_some hfind
    have hqk : pKey q = pKey p := by
      have := List.find?_some hfind
      simpa using this
    by_cases hlt : q.totalPrice < p.totalPrice
    · have hstep : insertPricing acc p =
          (acc.1.map (fun r => if pKey r = pKey p then p else r), acc.2 + 1) := by
        rw [insertPricing, hfind]
        simp [hlt, Nat.ne_of_lt hlt]
      rw [hstep]
      have hkeys : ((acc.1.map (fun r => if pKey r = pKey p then p else r)).map pKey)
          = acc.1.map pKey := by
        rw [List.map_map]
        apply List.map_congr_left
        intro r _
        by_cases hc : pKey r = pKey p
        · simp [Function.comp, hc]
        · simp [Function.comp, hc]
      refine ⟨by rw [hkeys]; exact hnd, ?_, ?_, Or.inl (Nat.succ_pos _)⟩
      · intro x hx
        obtain ⟨r, hr, hre⟩ := List.mem_map.mp hx
        by_cases hc : pKey r = pKey p
        · rw [if_pos hc] at hre
          rw [← hre]
          exact List.mem_append_right _ (by simp)
        · rw [if_neg hc] at hre
          rw [← hre]
          exact List.mem_append_left _ (hmem r hr)
      · intro x hx
        rcases List.mem_append.mp hx with hx1 | hx1
        · obtain ⟨r, hr, hrk, hrle⟩ := hdom x hx1
          by_cases hc : pKey r = pKey p
          · have hrq : r = q :=
              List.inj_on_of_nodup_map hnd hr hq1 (hc.trans hqk.symm)
            refine ⟨p, ?_, hc.symm.trans hrk, ?_⟩
            · have hmm : (if pKey r = pKey p then p else r) ∈
                  acc.1.map (fun r => if pKey r = pKey p then p else r) :=
                List.mem_map_of_mem _ hr
              rwa [if_pos hc] at hmm
            · rw [hrq] at hrle
              omega
          · refine ⟨r, ?_, hrk, hrle⟩
            have hmm : (if pKey r = pKey p then p else r) ∈
                acc.1.map (fun r => if pKey r = pKey p then p else r) :=
              List.mem_map_of_mem _ hr
            rwa [if_neg hc] at hmm
        · have hx2 : x = p := by simpa using hx1
          rw [hx2]
          refine ⟨p, ?_, rfl, le_rfl⟩
          have hmm : (if pKey q = pKey p then p else q) ∈
              acc.1.map (fun r => if pKey r = pKey p then p else r) :=
            List.mem_map_of_mem _ hq1
          rwa [if_pos hqk] at hmm
    · by_cases heqt : q.totalPrice = p.totalPrice
      · have hstep : insertPricing acc p = (acc.1, acc.2) := by
          rw [insertPricing, hfind]
          simp [hlt, heqt]
        rw [hstep]
        refine ⟨hnd, ?_, ?_, ?_⟩
        · intro x hx
          exact List.mem_append_left _ (hmem x hx)
        · intro x hx
          rcases List.mem_append.mp hx with hx1 | hx1
          · obtain ⟨r, hr, hrk, hrle⟩ := hdom x hx1
            exact ⟨r, hr, hrk, hrle⟩
          · have hx2 : x = p := by simpa using hx1
            rw [hx2]
            exact ⟨q, hq1, hqk, Nat.le_of_eq heqt.symm⟩
        · rcases hconf with h1 | hall
          · exact Or.inl h1
          · refine Or.inr ?_
            intro x hx y hy hk
            have key : ∀ z ∈ processed, pKey z = pKey p →
                z.totalPrice = p.totalPrice := by
              intro z hz hzk
              have := hall z hz q (hmem q hq1) (hzk.trans hqk.symm)
              omega
            rcases List.mem_append.mp hx with hx1 | hx1 <;>
              rcases List.mem_append.mp hy with hy1 | hy1
            · exact hall x hx1 y hy1 hk
            · have hy2 : y = p := by simpa using hy1
              rw [hy2] at hk ⊢
              exact key x hx1 hk
            · have hx2 : x = p := by simpa using hx1
              rw [hx2] at hk ⊢
              exact (key y hy1 hk.symm).symm
            · have hx2 : x = p := by simpa using hx1
              have hy2 : y = p := by simpa using hy1
              rw [hx2, hy2]
      · have hstep : insertPricing acc p = (acc.1, acc.2 + 1) := by
          rw [insertPricing, hfind]
          simp [hlt, heqt]
        rw [hstep]
        refine ⟨hnd, ?_, ?_, Or.inl (Nat.succ_pos _)⟩
        · intro x hx
          exact List.mem_append_left _ (hmem x hx)
        · intro x hx
          rcases List.mem_append.mp hx with hx1 | hx1
          · obtain ⟨r, hr, hrk, hrle⟩ := hdom x hx1
            exact ⟨r, hr, hrk, hrle⟩
          · have hx2 : x = p := by simpa using hx1
            rw [hx2]
            exact ⟨q, hq1, hqk, by omega⟩

theorem pricingInv_foldl (ps : List PricingItem) :
    ∀ processed acc, PricingInv processed acc →
      PricingInv (processed ++ ps) (ps.foldl insertPricing acc) := by
  induction ps with
  | nil =>
    intro processed acc h
    simpa using h
  | cons p ps ih =>
    intro processed acc h
    have := ih (processed ++ [p]) (insertPricing acc p)
      (pricingInv_step processed acc p h)
    simpa [List.append_assoc] using this

/-- The de-duplication invariant holds of the full pricing merge. -/
theorem dedupPricing_inv (ps : List PricingItem) :
    PricingInv ps (dedupPricing ps) := by
  have := pricingInv_foldl ps [] ([], 0) pricingInv_nil
  simpa [dedupPricing] using this

/-- A same-key pair with differing total prices forces a recorded
conflict. -/
theorem dedupPricing_conflict (ps : List PricingItem)
    (h : ∃ p ∈ ps, ∃ q ∈ ps, pKey p = pKey q ∧ p.totalPrice ≠ q.totalPrice) :
    0 < (dedupPricing ps).2 := by
  obtain ⟨p, hp, q, hq, hk, hne⟩ := h
  rcases (dedupPricing_inv ps).2.2.2 with h1 | hall
  · exact h1
  · exact absurd (hall p hp q hq hk) hne

/-! ### MemoryGovernor -/

/-- The discrete memory pressure buckets. -/
inductive MemoryPressureTier where
  | NORMAL
  | MEDIUM
  | HIGH
deriving DecidableEq, Repr

/-- Modelled from the spec: `MemoryGovernor.currentTier` — missing backend
source `app/memory_manager.py`. NORMAL below 75 percent used, MEDIUM from
75 to 90 percent, HIGH above 90 percent. -/
def currentTier (usagePct : ℚ) : MemoryPressureTier :=
  if usagePct < 75 then .NORMAL
  else if usagePct ≤ 90 then .MEDIUM
  else .HIGH

/-- Modelled from the spec: `MemoryGovernor.limitsFor` — the
(maxChunkWords, maxConcurrentChunks) pair of each tier. -/
def limitsFor : MemoryPressureTier → Nat × Nat
  | .NORMAL => (2000, 3)
  | .MEDIUM => (1500, 2)
  | .HIGH => (1000, 1)

/-! ### TaskManager -/

/-- Task lifecycle states. -/
inductive TaskStatus where
  | PENDING
  | PROCESSING
  | COMPLETED
  | FAILED
  | CANCELLED
deriving DecidableEq, Repr

/-- COMPLETED, FAILED and CANCELLED are the terminal states. -/
def isTerminal : TaskStatus → Bool
  | .COMPLETED => true
  | .FAILED => true
  | .CANCELLED => true
  | _ => false

/-- A background job record, owned by TaskManager. -/
structure Task where
  id : Nat
  owner : String
  status : TaskStatus
deriving DecidableEq, Repr

/-- Errors surfaced by `create`. -/
inductive CreateError where
  | TooManyTasks
deriving DecidableEq, Repr

/-- The task store of TaskManager plus the next fresh task id. -/
structure TMState where
  tasks : List Task
  nextId : Nat
deriving DecidableEq, Repr

/-- All tasks of one owner. -/
def tasksForUser (st : TMState) (owner : String) : List Task :=
  st.tasks.filter (fun t => decide (t.owner = owner))

/-- The tasks of the owner that are not in a terminal state. -/
def nonTerminalFor (st : TMState) (owner : String) : List Task :=
  st.tasks.filter (fun t => decide (t.owner = owner) && !isTerminal t.status)

/-- Modelled from the spec: `TaskManager.create` — missing backend source
`app/task_manager.py`. Rejects with TooManyTasks, leaving the store
untouched, when the owner already holds `maxUserTasks` (default 10)
non-terminal tasks; otherwise appends a fresh PENDING task. -/
def create (st : TMState) (owner : String) (maxUserTasks : Nat) :
    TMState × Except CreateError Task :=
  if maxUserTasks ≤ (nonTerminalFor st owner).length then
    (st, .error .TooManyTasks)
  else
    let t : Task := { id := st.nextId, owner := owner, status := .PENDING }
    ({ tasks := st.tasks ++ [t], nextId := st.nextId + 1 }, .ok t)

/-! ### Orchestrator end-of-run decision -/

/-- The per-chunk outcome reaching the Orchestrator after inference:
either a structured fragment or a chunk-level error. -/
inductive ChunkOutcome where
  | success (frag : Fragment)
  | failure
deriving DecidableEq, Repr

/-- The fragments of the successful chunks, in order. -/
def successFrags (rs : List ChunkOutcome) : List Fragment :=
  rs.filterMap (fun r =>
    match r with
    | .success f => some f
    | .failure => none)

/-- The number of failed chunks. -/
def failedCount (rs : List ChunkOutcome) : Nat :=
  rs.countP (fun r => decide (r = ChunkOutcome.failure))

/-- What the Orchestrator writes on the Task when a run ends. -/
structure TaskFinish where
  status : TaskStatus
  result : Option AggregatedResult
  errorMessage : Option String
deriving DecidableEq, Repr

/-- The non-fatal warning recorded when some chunks failed. -/
def failureWarning (failed total : Nat) : String :=
  toString failed ++ " of " ++ toString total ++ " chunks failed"

/-- The fatal message recorded when every chunk failed. -/
def allFailedMessage : String := "all chunks failed"

/-- Modelled from the spec: the end-of-run decision of the Orchestrator —
missing backend source `app/routers/enhanced_documents.py`. Fragments of
failed chunks are excluded from aggregation; if all chunks failed the Task
is FAILED with no result; if the failure ratio is below the threshold
`thrNum / thrDen` (default 1/2) aggregation runs on the successful subset
and the Task is COMPLETED, with the failure ratio recorded in
errorMessage when any chunk failed. -/
def finishTask (rs : List ChunkOutcome) (thrNum thrDen : Nat) : TaskFinish :=
  if failedCount rs = rs.length then
    { status := .FAILED, result := none, errorMessage := some allFailedMessage }
  else if failedCount rs * thrDen < thrNum * rs.length then
    { status := .COMPLETED,
      result := some (aggregate (successFrags rs)).1,
      errorMessage :=
        if failedCount rs = 0 then none
        else some (failureWarning (failedCount rs) rs.length) }
  else
    { status := .FAILED, result := none,
      errorMessage := some (failureWarning (failedCount rs) rs.length) }

/-! ### Cooperative cancellation at wave boundaries -/

/-- The observable outcome of one Task run: which chunks were dispatched,
how many completed (and counted toward progress), and the final status. -/
structure WaveState where
  dispatched : List Nat
  completedSteps : Nat
  status : TaskStatus
deriving DecidableEq, Repr

/-- Modelled from the spec: the wave loop of the Orchestrator — cancellation is
cooperative, checked once per wave boundary. `flag i` is the value of the
cancelRequested flag of the owning Task as observed at the check before wave
`i` is dispatched; a dispatched wave always runs to completion and counts
toward progress. -/
def runWaves (flag : Nat → Bool) : Nat → List (List Nat) → WaveState → WaveState
  | _, [], s => { s with status := TaskStatus.COMPLETED }
  | i, w :: ws, s =>
    if flag i then { s with status := TaskStatus.CANCELLED }
    else runWaves flag (i + 1) ws
      { s with dispatched := s.dispatched ++ w,
               completedSteps := s.completedSteps + w.length }

/-! ### BatchInferenceClient concurrency bound -/

/-- The scheduling state of one batched inference run: chunks not yet
dispatched, chunk calls in flight, and resolved chunks. -/
structure InferState where
  pending : List Nat
  inFlight : List Nat
  done : List Nat
deriving DecidableEq, Repr

/-- Modelled from the spec: one scheduling step of the bounded
worker pool of BatchInferenceClient — missing backend source
`app/enhanced_groq_client.py`. A chunk is dispatched only into a free
slot (strictly fewer than `maxConcurrent` calls in flight); a completed
call frees its slot. -/
inductive InferStep (maxConcurrent : Nat) : InferState → InferState → Prop where
  | dispatch (c : Nat) (rest : List Nat) (s : InferState) :
      s.pending = c :: rest →
      s.inFlight.length < maxConcurrent →
      InferStep maxConcurrent s
        { pending := rest, inFlight := s.inFlight ++ [c], done := s.done }
  | complete (c : Nat) (s : InferState) :
      c ∈ s.inFlight →
      InferStep maxConcurrent s
        { pending := s.pending, inFlight := s.inFlight.erase c,
          done := s.done ++ [c] }

/-- The states an inference run can reach from a given initial state. -/
inductive InferReachable (maxConcurrent : Nat) (init : InferState) :
    InferState → Prop where
  | refl : InferReachable maxConcurrent init init
  | step {s t : InferState} : InferReachable maxConcurrent init s →
      InferStep maxConcurrent s t → InferReachable maxConcurrent init t

/-- The initial state of an inference run: everything pending. -/
def initInferState (chunks : List Nat) : InferState :=
  { pending := chunks, inFlight := [], done := [] }

/-! ### Upload endpoint -/

/-- The two shapes of a successful upload response. -/
inductive UploadResponse where
  | accepted (taskId : Nat)
  | record (r : AggregatedResult)
deriving DecidableEq, Repr

/-- Modelled from the spec: the size test selecting the background chunked
path (threshold 10 MB in the migration guide). -/
def isLargeDocument (sizeBytes threshold : Nat) : Bool := threshold ≤ sizeBytes

/-- Modelled from the spec: the enhanced upload endpoint — missing backend
source `app/routers/enhanced_documents.py`. Large documents get a Task id
immediately; small documents get the synchronously computed structured
record. -/
def uploadEndpoint (sizeBytes threshold taskId : Nat)
    (syncResult : AggregatedResult) : UploadResponse :=
  if isLargeDocument sizeBytes threshold then .accepted taskId
  else .record syncResult

/-! ### Frontend DocumentStatus renderer -/

/-- One entry of the `statusConfig` object of `DocumentStatus` in
`venxtra-frontend/src/pages/VendorDetails.jsx`. -/
structure StatusConfig where
  icon : String
  color : String
  bg : String
deriving DecidableEq, Repr

def pendingConfig : StatusConfig :=
  { icon := "Clock",
    color := "text-yellow-600 dark:text-yellow-400",
    bg := "bg-yellow-100 dark:bg-yellow-900/30" }

def processingConfig : StatusConfig :=
  { icon := "Clock",
    color := "text-blue-600 dark:text-blue-400",
    bg := "bg-blue-100 dark:bg-blue-900/30" }

def completedConfig : StatusConfig :=
  { icon := "CheckCircle",
    color := "text-green-600 dark:text-green-400",
    bg := "bg-green-100 dark:bg-green-900/30" }

def failedConfig : StatusConfig :=
  { icon := "XCircle",
    color := "text-red-600 dark:text-red-400",
    bg := "bg-red-100 dark:bg-red-900/30" }

/-- The `statusConfig[status]` lookup of `DocumentStatus`. -/
def statusConfigLookup (status : String) : Option StatusConfig :=
  if status = "pending" then some pendingConfig
  else if status = "processing" then some processingConfig
  else if status = "completed" then some completedConfig
  else if status = "failed" then some failedConfig
  else none

/-- What `DocumentStatus` renders: a styling configuration and the raw
status text. -/
structure RenderedStatus where
  config : StatusConfig
  label : String
deriving DecidableEq, Repr

/-- The property names a plain object literal inherits from
`Object.prototype` in ECMAScript; a lookup of any of these on
`statusConfig` yields a truthy inherited value (a function, or the
prototype object for `__proto__`), not a styling entry. -/
def objectPrototypeKeys : List String :=
  ["constructor", "hasOwnProperty", "isPrototypeOf", "propertyIsEnumerable",
   "toLocaleString", "toString", "valueOf", "__proto__",
   "__defineGetter__", "__defineSetter__", "__lookupGetter__",
   "__lookupSetter__"]

/-- The value produced by the JavaScript property access
`statusConfig[status]`: an own styling entry, a truthy value inherited
from `Object.prototype`, or `undefined`. -/
inductive JsLookup where
  | own (c : StatusConfig)
  | inherited
  | undefinedValue
deriving DecidableEq, Repr

/-- The `statusConfig[status]` access of `DocumentStatus` with JavaScript
property-lookup semantics: own keys first, then the names inherited from
`Object.prototype`, else `undefined`. -/
def jsPropertyAccess (status : String) : JsLookup :=
  match statusConfigLookup status with
  | some c => .own c
  | none =>
      if status ∈ objectPrototypeKeys then .inherited else .undefinedValue

/-- The outcome of rendering `DocumentStatus`: a badge, or a thrown render
error. -/
inductive RenderResult where
  | rendered (r : RenderedStatus)
  | renderError
deriving DecidableEq, Repr

/-- The `DocumentStatus` component of
`venxtra-frontend/src/pages/VendorDetails.jsx`:
`const config = statusConfig[status] || statusConfig.pending` followed by
`const Icon = config.icon` and the badge markup. An own entry renders its
styling with the raw `status` text; `undefined` is falsy, so the fallback
renders the pending styling; a truthy value inherited from
`Object.prototype` skips the fallback, leaves `config.icon` undefined and
makes React throw on rendering the icon element. -/
def documentStatus (status : String) : RenderResult :=
  match jsPropertyAccess status with
  | .own c => .rendered { config := c, label := status }
  | .inherited => .renderError
  | .undefinedValue => .rendered { config := pendingConfig, label := status }

/-! ### Claim theorems -/

/-- C1: for every non-empty text and valid limits (overlap smaller than the
chunk window), `chunk` returns a finite ordered chunk sequence in which
every chunk holds at most `maxW` words, chunk `i` starts at word
`i * (maxW - ov)` (the window start advances by `maxW - ov` each step),
every pair of consecutive chunks overlaps in exactly `ov` words, and the
chunks cover the entire source text. -/
theorem C1_chunk_windows (ws : List String) (maxW ov : Nat)
    (hne : ws ≠ []) (hov : ov < maxW) :
    ∃ cs, chunk ws maxW ov = Except.ok cs ∧
      cs ≠ [] ∧
      (∀ c ∈ cs, c.length ≤ maxW) ∧
      (∀ i, i < cs.length →
        cs.getD i [] = (ws.drop (i * (maxW - ov))).take maxW) ∧
      (∀ i, i + 1 < cs.length →
        (cs.getD i []).drop (maxW - ov) = (cs.getD (i + 1) []).take ov ∧
        ((cs.getD i []).drop (maxW - ov)).length = ov) ∧
      cover (maxW - ov) cs = ws := by
  refine ⟨chunkFrom maxW (maxW - ov) ws, chunk_ok ws maxW ov hne hov,
    chunkFrom_ne_nil _ _ _, ?_, ?_, ?_, ?_⟩
  · exact chunk_length_le ws maxW ov _ (chunk_ok ws maxW ov hne hov)
  · intro i hi
    exact chunkFrom_getD maxW (maxW - ov) (by omega) (by omega) ws.length ws
      le_rfl i hi
  · intro i hi
    exact chunkFrom_overlap maxW ov hov ws i hi
  · exact chunkFrom_cover maxW (maxW - ov) (by omega) (by omega) ws.length ws
      le_rfl

/-- A concrete five-word text used by witnesses. -/
def sampleWords : List String := ["alpha", "beta", "gamma", "delta", "epsilon"]

/-- Witness for C1 at the five-word sample text with window 2 and
overlap 1. -/
theorem C1_chunk_windows_witness :
    sampleWords ≠ [] ∧ 1 < 2 ∧
      (∃ cs, chunk sampleWords 2 1 = Except.ok cs ∧
        cs ≠ [] ∧
        (∀ c ∈ cs, c.length ≤ 2) ∧
        (∀ i, i < cs.length →
          cs.getD i [] = (sampleWords.drop (i * (2 - 1))).take 2) ∧
        (∀ i, i + 1 < cs.length →
          (cs.getD i []).drop (2 - 1) = (cs.getD (i + 1) []).take 1 ∧
          ((cs.getD i []).drop (2 - 1)).length = 1) ∧
        cover (2 - 1) cs = sampleWords) :=
  ⟨by decide, by decide,
    C1_chunk_windows sampleWords 2 1 (by decide) (by decide)⟩

/-- C2: aggregation is order-independent — fragment lists with distinct
chunk ids that are permutations of each other aggregate to the same
result and the same conflict count. -/
theorem C2_aggregate_order_independent (l₁ l₂ : List Fragment)
    (hperm : l₁.Perm l₂) (hn : (l₁.map Fragment.chunkId).Nodup) :
    aggregate l₁ = aggregate l₂ := by
  unfold aggregate
  rw [sortFrags_eq_of_perm l₁ l₂ hperm hn]

/-- A concrete pricing line item used by witnesses. -/
def itemA : PricingItem :=
  { item := "Widget", quantity := 2, unitPrice := 5, totalPrice := 10 }

/-- A pricing line item sharing the composite key of `itemA` with a differing
total price. -/
def itemC : PricingItem :=
  { item := " widget", quantity := 2, unitPrice := 5, totalPrice := 12 }

/-- A concrete fragment used by witnesses. -/
def fragA : Fragment :=
  { chunkId := 0, vendorName := "Acme", documentType := "quote",
    products := ["widget"], deliveryTerms := [], paymentTerms := [],
    pricing := [itemA] }

/-- A second concrete fragment used by witnesses. -/
def fragB : Fragment :=
  { chunkId := 1, vendorName := "", documentType := "quote",
    products := ["gadget"], deliveryTerms := ["FOB"], paymentTerms := [],
    pricing := [] }

/-- A third concrete fragment whose pricing conflicts with that of `fragA`. -/
def fragC : Fragment :=
  { chunkId := 2, vendorName := "Acme Corp", documentType := "",
    products := [], deliveryTerms := [], paymentTerms := ["net 30"],
    pricing := [itemC] }

/-- Witness for C2: swapping two concrete fragments leaves the aggregate
unchanged. -/
theorem C2_aggregate_order_independent_witness :
    aggregate [fragA, fragB] = aggregate [fragB, fragA] :=
  C2_aggregate_order_independent [fragA, fragB] [fragB, fragA]
    (List.Perm.swap fragB fragA []) (by decide)

/-- C3: with the default 50 percent threshold, an all-failed run ends
FAILED with no result; a partial failure below the threshold ends
COMPLETED, the result aggregates only the fragments of the successful chunks,
and the failure ratio is recorded in errorMessage. -/
theorem C3_failure_handling (rs : List ChunkOutcome) :
    (failedCount rs = rs.length →
      finishTask rs 1 2 =
        { status := .FAILED, result := none,
          errorMessage := some allFailedMessage }) ∧
    (0 < failedCount rs → failedCount rs < rs.length →
      failedCount rs * 2 < rs.length →
      finishTask rs 1 2 =
        { status := .COMPLETED,
          result := some (aggregate (successFrags rs)).1,
          errorMessage :=
            some (failureWarning (failedCount rs) rs.length) }) := by
  constructor
  · intro h
    rw [finishTask, if_pos h]
  · intro h0 hlt hthr
    rw [finishTask, if_neg (by omega), if_pos (by omega), if_neg (by omega)]

/-- Six concrete chunk outcomes, two of which failed. -/
def outcomesSix : List ChunkOutcome :=
  [.success fragA, .failure, .success fragB, .failure,
   .success fragC,
   .success { fragB with chunkId := 5 }]

/-- Witness for C3: two failed chunks out of six yield COMPLETED with the
2-of-6 failure ratio recorded and aggregation over the four successes. -/
theorem C3_failure_handling_witness :
    0 < failedCount outcomesSix ∧
    failedCount outcomesSix < outcomesSix.length ∧
    failedCount outcomesSix * 2 < outcomesSix.length ∧
    finishTask outcomesSix 1 2 =
      { status := .COMPLETED,
        result := some (aggregate (successFrags outcomesSix)).1,
        errorMessage :=
          some (failureWarning (failedCount outcomesSix)
            outcomesSix.length) } :=
  ⟨by decide, by decide, by decide,
    (C3_failure_handling outcomesSix).2 (by decide) (by decide) (by decide)⟩

/-- C4: memory usage below 75 percent maps to NORMAL, 75 to 90 percent to
MEDIUM, above 90 percent to HIGH; the tiers carry the fixed limit pairs
(2000, 3), (1500, 2), (1000, 1); a reading of 92 yields HIGH, and a
chunking call under HIGH limits never emits a chunk of more than 1000
words. -/
theorem C4_memory_governor :
    (∀ u : ℚ, u < 75 → currentTier u = .NORMAL) ∧
    (∀ u : ℚ, 75 ≤ u → u ≤ 90 → currentTier u = .MEDIUM) ∧
    (∀ u : ℚ, 90 < u → currentTier u = .HIGH) ∧
    limitsFor .NORMAL = (2000, 3) ∧
    limitsFor .MEDIUM = (1500, 2) ∧
    limitsFor .HIGH = (1000, 1) ∧
    currentTier 92 = .HIGH ∧
    (∀ (ws : List String) (ov : Nat) (cs : List (List String)),
      chunk ws (limitsFor .HIGH).1 ov = Except.ok cs →
      ∀ c ∈ cs, c.length ≤ (limitsFor .HIGH).1) := by
  refine ⟨?_, ?_, ?_, rfl, rfl, rfl, ?_, ?_⟩
  · intro u h
    rw [currentTier, if_pos h]
  · intro u h1 h2
    rw [currentTier, if_neg (not_lt.mpr h1), if_pos h2]
  · intro u h
    rw [currentTier, if_neg (not_lt.mpr (by linarith)), if_neg (not_le.mpr h)]
  · rw [currentTier]
    norm_num
  · intro ws ov cs hok
    exact chunk_length_le ws (limitsFor .HIGH).1 ov cs hok

/-- Witness for C4: the tier of concrete readings 50, 80 and 92, the HIGH
limits, and the chunk bound on a concrete HIGH-limit chunking call. -/
theorem C4_memory_governor_witness :
    currentTier 50 = .NORMAL ∧ currentTier 80 = .MEDIUM ∧
    currentTier 92 = .HIGH ∧ limitsFor .HIGH = (1000, 1) ∧
    (∀ c ∈ chunkFrom 1000 (1000 - 200) sampleWords, c.length ≤ 1000) :=
  ⟨C4_memory_governor.1 50 (by norm_num),
   C4_memory_governor.2.1 80 (by norm_num) (by norm_num),
   C4_memory_governor.2.2.2.2.2.2.1,
   C4_memory_governor.2.2.2.2.2.1,
   C4_memory_governor.2.2.2.2.2.2.2 sampleWords 200 _
     (chunk_ok sampleWords 1000 200 (by decide) (by decide))⟩

/-- C5: when the cancelRequested flag is observed false before wave 1 and
true at the next wave boundary, the chunks of wave 1 complete and count toward
progress, no chunk of wave 2 or wave 3 is ever dispatched, and the Task
ends CANCELLED. -/
theorem C5_cooperative_cancellation (flag : Nat → Bool) (w1 w2 w3 : List Nat)
    (h0 : flag 0 = false) (h1 : flag 1 = true) :
    runWaves flag 0 [w1, w2, w3]
        { dispatched := [], completedSteps := 0, status := .PROCESSING } =
      { dispatched := w1, completedSteps := w1.length,
        status := .CANCELLED } ∧
    (∀ c, (c ∈ w2 ∨ c ∈ w3) → c ∉ w1 →
      c ∉ (runWaves flag 0 [w1, w2, w3]
        { dispatched := [], completedSteps := 0,
          status := .PROCESSING }).dispatched) := by
  have hrun : runWaves flag 0 [w1, w2, w3]
      { dispatched := [], completedSteps := 0, status := .PROCESSING } =
      { dispatched := w1, completedSteps := w1.length,
        status := .CANCELLED } := by
    rw [runWaves, if_neg (by simp [h0]), runWaves, if_pos h1]
    simp
  refine ⟨hrun, ?_⟩
  intro c _ hnot
  rw [hrun]
  exact hnot

/-- Witness for C5: a flag raised after wave 1 cancels a concrete
three-wave run after exactly the first wave. -/
theorem C5_cooperative_cancellation_witness :
    runWaves (fun i => decide (1 ≤ i)) 0 [[10, 11], [20, 21], [30, 31]]
        { dispatched := [], completedSteps := 0, status := .PROCESSING } =
      { dispatched := [10, 11], completedSteps := 2,
        status := .CANCELLED } ∧
    (∀ c, (c ∈ [20, 21] ∨ c ∈ [30, 31]) → c ∉ [10, 11] →
      c ∉ (runWaves (fun i => decide (1 ≤ i)) 0 [[10, 11], [20, 21], [30, 31]]
        { dispatched := [], completedSteps := 0,
          status := .PROCESSING }).dispatched) :=
  C5_cooperative_cancellation (fun i => decide (1 ≤ i))
    [10, 11] [20, 21] [30, 31] (by decide) (by decide)

/-- C6: an owner already holding exactly `maxUserTasks` non-terminal tasks
is rejected with TooManyTasks; the store, and hence the task set of the owner,
is unchanged and no task is produced. -/
theorem C6_create_too_many (st : TMState) (owner : String)
    (maxUserTasks : Nat)
    (h : (nonTerminalFor st owner).length = maxUserTasks) :
    create st owner maxUserTasks =
      (st, Except.error CreateError.TooManyTasks) ∧
    (create st owner maxUserTasks).1 = st ∧
    tasksForUser (create st owner maxUserTasks).1 owner =
      tasksForUser st owner := by
  have hc : create st owner maxUserTasks =
      (st, Except.error CreateError.TooManyTasks) := by
    rw [create, if_pos (by omega)]
  refine ⟨hc, ?_, ?_⟩ <;> rw [hc]

/-- A concrete owner identity used by witnesses. -/
def alice : String := "alice"

/-- A store in which `alice` already holds two PENDING tasks. -/
def twoTaskState : TMState :=
  { tasks := [{ id := 0, owner := alice, status := .PENDING },
              { id := 1, owner := alice, status := .PENDING }],
    nextId := 2 }

/-- Witness for C6: with maxUserTasks 2 and two PENDING tasks, a third
create is rejected and the task set of alice is unchanged. -/
theorem C6_create_too_many_witness :
    (nonTerminalFor twoTaskState alice).length = 2 ∧
    create twoTaskState alice 2 =
      (twoTaskState, Except.error CreateError.TooManyTasks) ∧
    (create twoTaskState alice 2).1 = twoTaskState ∧
    tasksForUser (create twoTaskState alice 2).1 alice =
      tasksForUser twoTaskState alice :=
  ⟨by decide, C6_create_too_many twoTaskState alice 2 (by decide)⟩

/-- C7: in every reachable state of a batched inference run, the number of
in-flight calls to the external service never exceeds the worker-pool
bound `maxConcurrent`, even as completed calls free slots that are
refilled. -/
theorem C7_bounded_concurrency (chunks : List Nat) (maxConcurrent : Nat)
    (s : InferState)
    (h : InferReachable maxConcurrent (initInferState chunks) s) :
    s.inFlight.length ≤ maxConcurrent := by
  induction h with
  | refl => simp [initInferState]
  | step hr hs ih =>
    cases hs with
    | dispatch c rest t hp hlen =>
      simp only [List.length_append, List.length_cons, List.length_nil]
      omega
    | complete c t hc =>
      exact le_trans (List.erase_sublist c _).length_le ih

/-- Witness for C7: a concrete reachable state of a two-chunk run with a
pool of one worker keeps at most one call in flight. -/
theorem C7_bounded_concurrency_witness :
    ({ pending := [7], inFlight := [3], done := [] } : InferState).inFlight.length ≤ 1 :=
  C7_bounded_concurrency [3, 7] 1 _
    (InferReachable.step InferReachable.refl
      (InferStep.dispatch 3 [7] (initInferState [3, 7]) rfl (by decide)))

/-- The pricing items feeding the merge inside `aggregate` are exactly the
items of the pricing lists of the input fragments. -/
theorem mem_pricingSource (fs : List Fragment) (p : PricingItem) :
    p ∈ ((sortFrags fs).map Fragment.pricing).flatten ↔
      ∃ f ∈ fs, p ∈ f.pricing := by
  simp [sortFrags, List.mem_flatten]

/-- C8: in every aggregate, pricing line items carry pairwise-distinct
composite keys; every source item is dominated by a kept item of its key
(so the higher total price wins on a key conflict); kept items come from
the sources; a same-key pair with differing totals forces a recorded
conflict count; the total pricing equals the sum of the deduplicated
line-item totals and is zero when no pricing items are present. -/
theorem C8_pricing_dedup (fs : List Fragment) :
    (((aggregate fs).1.pricing).map pKey).Nodup ∧
    (∀ p, (∃ f ∈ fs, p ∈ f.pricing) →
      ∃ q ∈ (aggregate fs).1.pricing,
        pKey q = pKey p ∧ p.totalPrice ≤ q.totalPrice) ∧
    (∀ q ∈ (aggregate fs).1.pricing, ∃ f ∈ fs, q ∈ f.pricing) ∧
    ((∃ p, (∃ f ∈ fs, p ∈ f.pricing) ∧ ∃ q, (∃ f ∈ fs, q ∈ f.pricing) ∧
        pKey p = pKey q ∧ p.totalPrice ≠ q.totalPrice) →
      0 < (aggregate fs).2) ∧
    (aggregate fs).1.totalPricing
      = (((aggregate fs).1.pricing).map PricingItem.totalPrice).sum ∧
    ((∀ f ∈ fs, f.pricing = []) → (aggregate fs).1.totalPricing = 0) := by
  obtain ⟨hnd, hmem, hdom, _⟩ :=
    dedupPricing_inv (((sortFrags fs).map Fragment.pricing).flatten)
  have hag1 : (aggregate fs).1.pricing
      = (dedupPricing (((sortFrags fs).map Fragment.pricing).flatten)).1 := rfl
  have hag2 : (aggregate fs).2
      = (dedupPricing (((sortFrags fs).map Fragment.pricing).flatten)).2 := rfl
  refine ⟨?_, ?_, ?_, ?_, rfl, ?_⟩
  · rw [hag1]
    exact hnd
  · intro p hp
    rw [hag1]
    exact hdom p ((mem_pricingSource fs p).mpr hp)
  · intro q hq
    rw [hag1] at hq
    exact (mem_pricingSource fs q).mp (hmem q hq)
  · rintro ⟨p, hp, q, hq, hk, hne⟩
    rw [hag2]
    exact dedupPricing_conflict _
      ⟨p, (mem_pricingSource fs p).mpr hp, q,
       (mem_pricingSource fs q).mpr hq, hk, hne⟩
  · intro hall
    have hLnil : ((sortFrags fs).map Fragment.pricing).flatten = [] := by
      apply List.flatten_eq_nil_iff.mpr
      intro l hl
      obtain ⟨f, hf, hfe⟩ := List.mem_map.mp hl
      rw [← hfe]
      exact hall f (by simpa [sortFrags] using hf)
    calc (aggregate fs).1.totalPricing
        = ((dedupPricing
            (((sortFrags fs).map Fragment.pricing).flatten)).1.map
              PricingItem.totalPrice).sum := rfl
      _ = 0 := by rw [hLnil]; rfl

/-- Witness for C8: the conflicting concrete items of `fragA` and `fragC`
(same normalized key, totals 10 and 12) force a positive recorded
conflict count. -/
theorem C8_pricing_dedup_witness :
    pKey itemA = pKey itemC ∧ itemA.totalPrice ≠ itemC.totalPrice ∧
    0 < (aggregate [fragA, fragC]).2 :=
  ⟨by decide, by decide,
    (C8_pricing_dedup [fragA, fragC]).2.2.2.1
      ⟨itemA, ⟨fragA, by decide, by decide⟩,
       itemC, ⟨fragC, by decide, by decide⟩, by decide, by decide⟩⟩

/-- C9: a large-document upload returns a Task id immediately and never
the synchronous structured record; a small-document upload returns the
final structured record synchronously. -/
theorem C9_upload_shapes (sizeBytes threshold taskId : Nat)
    (syncResult : AggregatedResult) :
    (isLargeDocument sizeBytes threshold = true →
      uploadEndpoint sizeBytes threshold taskId syncResult
          = UploadResponse.accepted taskId ∧
      ∀ r, uploadEndpoint sizeBytes threshold taskId syncResult
          ≠ UploadResponse.record r) ∧
    (isLargeDocument sizeBytes threshold = false →
      uploadEndpoint sizeBytes threshold taskId syncResult
          = UploadResponse.record syncResult) := by
  constructor
  · intro h
    rw [uploadEndpoint, if_pos h]
    exact ⟨rfl, fun r hr => by cases hr⟩
  · intro h
    rw [uploadEndpoint, if_neg (by simp [h])]

/-- Witness for C9: a 20 MB upload against the 10 MB threshold yields a
task id, a 1 MB upload yields the synchronous record. -/
theorem C9_upload_shapes_witness :
    isLargeDocument 20971520 10485760 = true ∧
    uploadEndpoint 20971520 10485760 42 (aggregate [fragA]).1
        = UploadResponse.accepted 42 ∧
    isLargeDocument 1048576 10485760 = false ∧
    uploadEndpoint 1048576 10485760 42 (aggregate [fragA]).1
        = UploadResponse.record (aggregate [fragA]).1 :=
  ⟨by decide,
   ((C9_upload_shapes 20971520 10485760 42 (aggregate [fragA]).1).1
      (by decide)).1,
   by decide,
   (C9_upload_shapes 1048576 10485760 42 (aggregate [fragA]).1).2
      (by decide)⟩

/-- The status string of a cancelled task, used by the C10 witness. -/
def cancelledLabel : String := "cancelled"

/-- The status string that exhibits the prototype-chain hole of
`DocumentStatus`. -/
def constructorLabel : String := "constructor"

/-- C10 counterexample: the status string constructor lies outside the
four configured keys, yet `DocumentStatus` does not fall back to the
pending styling — the property access hits the truthy value inherited
from `Object.prototype`, the fallback never fires, and the render
throws. -/
theorem C10_document_status_counterexample :
    constructorLabel ∉ ["pending", "processing", "completed", "failed"] ∧
    documentStatus constructorLabel
      ≠ RenderResult.rendered
          { config := pendingConfig, label := constructorLabel } ∧
    documentStatus constructorLabel = RenderResult.renderError := by
  refine ⟨by decide, by decide, by decide⟩

/-- C10 (amended): for every status string outside the four configured
keys that is not a property name inherited from `Object.prototype` —
including a cancelled task — `DocumentStatus` does not fail and falls
back to the pending styling while still displaying the raw status
text. -/
theorem C10_document_status_fallback (status : String)
    (h1 : status ≠ "pending") (h2 : status ≠ "processing")
    (h3 : status ≠ "completed") (h4 : status ≠ "failed")
    (h5 : status ∉ objectPrototypeKeys) :
    documentStatus status
      = RenderResult.rendered { config := pendingConfig, label := status } := by
  rw [documentStatus, jsPropertyAccess, statusConfigLookup,
    if_neg h1, if_neg h2, if_neg h3, if_neg h4]
  simp only [if_neg h5]

/-- Witness for C10: a cancelled task renders with the pending styling
and the raw status text. -/
theorem C10_document_status_fallback_witness :
    documentStatus cancelledLabel
      = RenderResult.rendered
          { config := pendingConfig, label := cancelledLabel } :=
  C10_document_status_fallback cancelledLabel (by decide) (by decide)
    (by decide) (by decide) (by decide)
